import Mathlib

/-!
# Verification of the distributed payments ledger core

Shallow embedding of the transaction-posting engine of
`sheikh-saqib/distributed-payments-ledger-system`.

Sources embedded:
* `internal/models/transaction.go` — `Transaction`, `LedgerEntry`
  (amounts are `shopspring/decimal` arbitrary-precision decimals, whose
  `Add`/`Neg`/`Cmp` embed exactly into `ℚ`; timestamps are opaque,
  modelled as `Nat`);
* the in-memory store (`MemoryLedgerStore`): entries slice, transactions
  map keyed by idempotency key, all five operations returning a `nil`
  error;
* the latest revision of `Ledger.PostTransaction` (the variant returning
  `(bool, error)`, with idempotency pre-check, per-account mutexes taken
  in `<`-order on the account ids, positive-amount validation, entry
  construction, a single `SaveTransactionWithEntries` persist call whose
  returned error the caller discards, and a best-effort event publish
  that touches neither the result nor the store);
* the earlier revision of `Ledger.PostTransaction`
  (`internal/ledger/ledger.go`: plain `error` result, persisting through
  `SaveTransaction` + two `SaveEntry` calls, each error checked);
* `Ledger.GetBalance` (fold of `Add` over `GetEntriesByAccount`, starting
  from `decimal.Zero`).

Go compares strings byte-lexicographically; on UTF-8 data this is
codepoint-lexicographic, embedded as `goLess` below (kept computable so
that concrete runs evaluate).

Lock model: `getAccountLock` returns one mutex per account id (the same
mutex for the same id).  A Go `sync.Mutex` is not reentrant: `Lock()` on a
mutex already held by the caller blocks forever.  A single call runs with
no other lock holders, so we track the set of mutexes the call itself
holds; an acquisition sequence that revisits a held account id never
returns, which the embedding renders as `none`.

The repository does not contain the Postgres implementation of
`SaveTransactionWithEntries`; its semantics (atomic all-or-nothing write
of the transaction row and both entries, `duplicateKey` on an
`idempotency_key` uniqueness violation, `failure` otherwise) is modelled
from the spec (§4.3), driven by a `SaveOutcome` oracle standing for the
environment (connectivity, concurrent duplicates).
-/

namespace PaymentsLedger

/-- Lexicographic comparison of character lists, mirroring Go's `<` on
strings (byte order, which on UTF-8 agrees with codepoint order). -/
def strLtB : List Char → List Char → Bool
  | [], [] => false
  | [], _ :: _ => true
  | _ :: _, [] => false
  | a :: as, b :: bs => if a < b then true else if b < a then false else strLtB as bs

/-- Go's `s1 < s2` on strings. -/
def goLess (a b : String) : Bool := strLtB a.data b.data

/-- Model of `shopspring/decimal.Decimal`: exact arbitrary-precision
decimal arithmetic (`Add`, `Neg`, `Cmp`) embeds exactly into `ℚ`. -/
abbrev Amount := ℚ

/-- `models.Transaction` (internal/models/transaction.go). -/
structure Transaction where
  id : String
  idempotencyKey : String
  fromAccount : String
  toAccount : String
  amount : Amount
  createdAt : Nat
  deriving DecidableEq

/-- `models.LedgerEntry` (internal/models/transaction.go). -/
structure LedgerEntry where
  id : String
  accountId : String
  amount : Amount
  createdAt : Nat
  deriving DecidableEq

/-- Go map assignment `m[k] = v`: afterwards `k` maps to `v`, every other
key is untouched.  `map[string]models.Transaction` is modelled as an
association list. -/
def mapSet (m : List (String × Transaction)) (k : String) (v : Transaction) :
    List (String × Transaction) :=
  (k, v) :: m.filter (fun p => p.1 != k)

/-- State of `MemoryLedgerStore`: the `entries` slice and the
`transactions` map keyed by idempotency key. -/
structure MemStore where
  entries : List LedgerEntry
  transactions : List (String × Transaction)
  deriving DecidableEq

/-- `MemoryLedgerStore.SaveEntry`: appends to the entries slice, always
returns a `nil` error. -/
def MemStore.saveEntry (m : MemStore) (e : LedgerEntry) :
    Option String × MemStore :=
  (none, { m with entries := m.entries ++ [e] })

/-- `MemoryLedgerStore.GetLedgerEntries`: returns (a copy of) all
entries, always a `nil` error. -/
def MemStore.getLedgerEntries (m : MemStore) :
    List LedgerEntry × Option String :=
  (m.entries, none)

/-- `MemoryLedgerStore.GetEntriesByAccount`: filters the entries slice by
`AccountID`, always a `nil` error. -/
def MemStore.getEntriesByAccount (m : MemStore) (accountId : String) :
    List LedgerEntry × Option String :=
  (m.entries.filter (fun e => e.accountId == accountId), none)

/-- `MemoryLedgerStore.TransactionExists`: membership of the key in the
transactions map, always a `nil` error. -/
def MemStore.transactionExists (m : MemStore) (idempotencyKey : String) :
    Bool × Option String :=
  ((m.transactions.lookup idempotencyKey).isSome, none)

/-- `MemoryLedgerStore.SaveTransaction`:
`m.transactions[tx.IdempotencyKey] = tx`, always a `nil` error. -/
def MemStore.saveTransaction (m : MemStore) (tx : Transaction) :
    Option String × MemStore :=
  (none, { m with transactions := mapSet m.transactions tx.idempotencyKey tx })

/-- The order in which `PostTransaction` locks the two account mutexes
(`getAccountLock` yields the same mutex for the same account id):
`if tx.FromAccount < tx.ToAccount { debit; credit } else { credit; debit }`. -/
def lockSeq (tx : Transaction) : List String :=
  if goLess tx.fromAccount tx.toAccount then [tx.fromAccount, tx.toAccount]
  else [tx.toAccount, tx.fromAccount]

/-- Acquire the mutexes named by the list in order, starting from those
already held by this call.  `sync.Mutex` is not reentrant, so acquiring a
mutex the caller already holds blocks forever — rendered `none`. -/
def acquireAll (held : List String) : List String → Option (List String)
  | [] => some held
  | a :: rest => if a ∈ held then none else acquireAll (a :: held) rest

/-- Outcome of the (spec-modelled) atomic persist, as seen by the caller:
an oracle input standing for the storage environment. -/
inductive SaveOutcome
  | ok
  | duplicateKey
  | failure
  deriving DecidableEq

/-- Errors `PostTransaction` can return. -/
inductive GoErr
  | validationAmount
  | storeErr (msg : String)
  deriving DecidableEq

/-- The debit entry built by `PostTransaction`: `{ID: tx.ID + "-debit",
AccountID: tx.FromAccount, Amount: tx.Amount.Neg(), CreatedAt: tx.CreatedAt}`. -/
def debitEntry (tx : Transaction) : LedgerEntry :=
  { id := tx.id ++ "-debit", accountId := tx.fromAccount,
    amount := -tx.amount, createdAt := tx.createdAt }

/-- The credit entry built by `PostTransaction`: `{ID: tx.ID + "-credit",
AccountID: tx.ToAccount, Amount: tx.Amount, CreatedAt: tx.CreatedAt}`. -/
def creditEntry (tx : Transaction) : LedgerEntry :=
  { id := tx.id ++ "-credit", accountId := tx.toAccount,
    amount := tx.amount, createdAt := tx.createdAt }

/-- Modelled from the spec: `SaveTransactionWithEntries` — the Postgres
`LedgerStore` implementing it is not in the repository (only its
interface and call site are).  Per §4.3 it is atomic across the three
writes: on success the transaction row and both entries all become
visible; on `duplicateKey` (uniqueness violation on `idempotency_key`) or
on any other `failure`, none of the three rows is visible.  Which of the
three outcomes occurs is environment-driven, supplied by the
`SaveOutcome` oracle. -/
def saveTransactionWithEntries (so : SaveOutcome) (m : MemStore)
    (tx : Transaction) (debit credit : LedgerEntry) :
    Option String × MemStore :=
  match so with
  | .ok =>
      (none, { entries := m.entries ++ [debit, credit],
               transactions := mapSet m.transactions tx.idempotencyKey tx })
  | .duplicateKey =>
      (some "duplicate key value violates unique constraint", m)
  | .failure =>
      (some "storage failure", m)

/-- The latest revision of `Ledger.PostTransaction` (the `(bool, error)`
variant): idempotency pre-check, lock acquisition in `<`-order,
validation, entry construction, one `SaveTransactionWithEntries` call
*whose returned error the code discards* (line 115), best-effort publish
(no effect on the result or the store).  `none` models a call that never
returns (blocked on a mutex this call already holds). -/
def postTransaction (so : SaveOutcome) (m : MemStore) (tx : Transaction) :
    Option ((Bool × Option GoErr) × MemStore) :=
  match m.transactionExists tx.idempotencyKey with
  | (_, some e) => some ((false, some (.storeErr e)), m)
  | (exKey, none) =>
    if exKey then some ((true, none), m)
    else
      match acquireAll [] (lockSeq tx) with
      | none => none
      | some _ =>
        if tx.amount ≤ 0 then some ((false, some .validationAmount), m)
        else
          let save := saveTransactionWithEntries so m tx (debitEntry tx) (creditEntry tx)
          some ((false, none), save.2)

/-- The store state after a successful fresh posting of `tx`. -/
def postedStore (m : MemStore) (tx : Transaction) : MemStore :=
  { entries := m.entries ++ [debitEntry tx, creditEntry tx],
    transactions := mapSet m.transactions tx.idempotencyKey tx }

/-- The earlier revision of `Ledger.PostTransaction`
(internal/ledger/ledger.go), composed with the concrete in-memory store:
pre-check, locks, validation, then `SaveTransaction`, `SaveEntry(debit)`,
`SaveEntry(credit)`, each returned error checked and propagated. -/
def postTransactionMem (m : MemStore) (tx : Transaction) :
    Option (Option GoErr × MemStore) :=
  match m.transactionExists tx.idempotencyKey with
  | (_, some e) => some (some (.storeErr e), m)
  | (exKey, none) =>
    if exKey then some (none, m)
    else
      match acquireAll [] (lockSeq tx) with
      | none => none
      | some _ =>
        if tx.amount ≤ 0 then some (some .validationAmount, m)
        else
          match m.saveTransaction tx with
          | (some e, m1) => some (some (.storeErr e), m1)
          | (none, m1) =>
            match m1.saveEntry (debitEntry tx) with
            | (some e, m2) => some (some (.storeErr e), m2)
            | (none, m2) =>
              match m2.saveEntry (creditEntry tx) with
              | (some e, m3) => some (some (.storeErr e), m3)
              | (none, m3) => some (none, m3)

/-- `Ledger.GetBalance`: `decimal.Zero` folded with `Add` over
`GetEntriesByAccount`; a store error would surface with a zero balance. -/
def getBalance (m : MemStore) (accountId : String) : Amount × Option String :=
  match m.getEntriesByAccount accountId with
  | (_, some e) => (0, some e)
  | (es, none) => (es.foldl (fun acc e => acc + e.amount) 0, none)

/-- Number of persisted transactions carrying a given idempotency key. -/
def countKey (m : List (String × Transaction)) (k : String) : Nat :=
  (m.filter (fun p => p.1 == k)).length

/-- Run a sequence of `PostTransaction` calls left to right; `none` as
soon as one call never returns. -/
def runSeq (so : SaveOutcome) (m : MemStore) : List Transaction → Option MemStore
  | [] => some m
  | tx :: rest =>
    match postTransaction so m tx with
    | none => none
    | some (_, m') => runSeq so m' rest

/-- The spec's running example transaction `post(A,B,100.00,key1)`. -/
def exTx : Transaction :=
  { id := "tx-1", idempotencyKey := "key1", fromAccount := "A",
    toAccount := "B", amount := 100, createdAt := 0 }

/-- Store contents after the example transaction posts into an empty
store. -/
def exStore : MemStore := postedStore ⟨[], []⟩ exTx

end PaymentsLedger

namespace PaymentsLedger

/-! ## Helper lemmas: the Go string order is a strict total order -/

theorem strLtB_irrefl : ∀ as : List Char, strLtB as as = false := by
  intro as
  induction as with
  | nil => rfl
  | cons a as ih => simp [strLtB, lt_irrefl, ih]

theorem strLtB_asymm : ∀ as bs : List Char,
    strLtB as bs = true → strLtB bs as = false := by
  intro as
  induction as with
  | nil =>
    intro bs h
    cases bs with
    | nil => simp [strLtB] at h
    | cons b bs => simp [strLtB]
  | cons a as ih =>
    intro bs h
    cases bs with
    | nil => simp [strLtB] at h
    | cons b bs =>
      simp only [strLtB] at h ⊢
      rcases lt_trichotomy a b with hab | heq | hba
      · rw [if_neg (lt_asymm hab), if_pos hab]
      · subst heq
        rw [if_neg (lt_irrefl a), if_neg (lt_irrefl a)] at h ⊢
        exact ih bs h
      · rw [if_neg (lt_asymm hba), if_pos hba] at h
        exact absurd h (by simp)

theorem strLtB_conn : ∀ as bs : List Char,
    strLtB as bs = false → strLtB bs as = false → as = bs := by
  intro as
  induction as with
  | nil =>
    intro bs h _
    cases bs with
    | nil => rfl
    | cons b bs => simp [strLtB] at h
  | cons a as ih =>
    intro bs h h'
    cases bs with
    | nil => simp [strLtB] at h'
    | cons b bs =>
      simp only [strLtB] at h h'
      rcases lt_trichotomy a b with hab | heq | hba
      · rw [if_pos hab] at h; exact absurd h (by simp)
      · subst heq
        rw [if_neg (lt_irrefl a), if_neg (lt_irrefl a)] at h h'
        rw [ih bs h h']
      · rw [if_pos hba] at h'; exact absurd h' (by simp)

theorem goLess_asymm (a b : String) (h : goLess a b = true) :
    goLess b a = false :=
  strLtB_asymm a.data b.data h

theorem goLess_total (a b : String) (h : a ≠ b) :
    goLess a b = true ∨ goLess b a = true := by
  by_cases hab : goLess a b = true
  · exact Or.inl hab
  · by_cases hba : goLess b a = true
    · exact Or.inr hba
    · exfalso
      apply h
      have := strLtB_conn a.data b.data
        (Bool.eq_false_iff.mpr hab) (Bool.eq_false_iff.mpr hba)
      exact String.toList_inj.mp this

/-! ## Helper lemmas: lock acquisition -/

theorem acquireAll_pair (a b : String) (h : b ≠ a) :
    acquireAll [] [a, b] = some [b, a] := by
  simp [acquireAll, h]

theorem lockSeq_acquire (tx : Transaction)
    (h : tx.fromAccount ≠ tx.toAccount) :
    acquireAll [] (lockSeq tx) = some (lockSeq tx).reverse := by
  unfold lockSeq
  by_cases hg : goLess tx.fromAccount tx.toAccount = true
  · rw [if_pos hg]
    simpa using acquireAll_pair _ _ (Ne.symm h)
  · rw [if_neg hg]
    simpa using acquireAll_pair _ _ h

/-! ## Helper lemmas: the transactions map -/

theorem lookup_mapSet (m : List (String × Transaction)) (k : String)
    (v : Transaction) : (mapSet m k v).lookup k = some v := by
  simp [mapSet, List.lookup]

theorem filter_ne_filter_eq_nil (m : List (String × Transaction)) (k : String) :
    (m.filter (fun p => p.1 != k)).filter (fun p => p.1 == k) = [] := by
  induction m with
  | nil => rfl
  | cons p m ih =>
    cases hpk : (p.1 == k) with
    | true => simp [List.filter, bne, hpk, ih]
    | false => simp [List.filter, bne, hpk, ih]

theorem countKey_mapSet (m : List (String × Transaction)) (k : String)
    (v : Transaction) : countKey (mapSet m k v) k = 1 := by
  simp [countKey, mapSet, List.filter, filter_ne_filter_eq_nil]

/-! ## Helper lemmas: `PostTransaction` paths -/

theorem post_duplicate (so : SaveOutcome) (m : MemStore) (tx : Transaction)
    (h : (m.transactions.lookup tx.idempotencyKey).isSome = true) :
    postTransaction so m tx = some ((true, none), m) := by
  simp [postTransaction, MemStore.transactionExists, h]

theorem post_fresh (so : SaveOutcome) (m : MemStore) (tx : Transaction)
    (hfresh : m.transactions.lookup tx.idempotencyKey = none)
    (hamt : 0 < tx.amount) (hne : tx.fromAccount ≠ tx.toAccount) :
    postTransaction so m tx =
      some ((false, none),
        (saveTransactionWithEntries so m tx (debitEntry tx) (creditEntry tx)).2) := by
  simp only [postTransaction, MemStore.transactionExists, hfresh,
    Option.isSome_none, Bool.false_eq_true, if_false, lockSeq_acquire tx hne,
    if_neg (not_le.mpr hamt)]

theorem post_fresh_ok (m : MemStore) (tx : Transaction)
    (hfresh : m.transactions.lookup tx.idempotencyKey = none)
    (hamt : 0 < tx.amount) (hne : tx.fromAccount ≠ tx.toAccount) :
    postTransaction .ok m tx = some ((false, none), postedStore m tx) :=
  post_fresh .ok m tx hfresh hamt hne

theorem runSeq_dup (so : SaveOutcome) (m : MemStore) (k : String)
    (h : (m.transactions.lookup k).isSome = true) :
    ∀ ls : List Transaction, (∀ tx ∈ ls, tx.idempotencyKey = k) →
      runSeq so m ls = some m := by
  intro ls
  induction ls with
  | nil => intro _; rfl
  | cons t ts ih =>
    intro hall
    have hk : t.idempotencyKey = k := hall t (List.mem_cons_self t ts)
    have hdup := post_duplicate so m t (by rw [hk]; exact h)
    simp only [runSeq, hdup]
    exact ih (fun tx hx => hall tx (List.mem_cons_of_mem t hx))

/-! ## Helper lemmas: balance -/

theorem foldl_add_eq_sum (es : List LedgerEntry) (q : Amount) :
    es.foldl (fun acc e => acc + e.amount) q =
      q + (es.map (fun e => e.amount)).sum := by
  induction es generalizing q with
  | nil => simp
  | cons e es ih => simp [ih, add_assoc]

/-! ## Claim theorems -/

/-- C1: the claim says a failing atomic persist is surfaced to the caller
as a storage failure.  The code discards the error returned by
`SaveTransactionWithEntries`: when the persist fails on a fresh, valid
transaction, `PostTransaction` returns `(false, nil)` — the "newly
posted" outcome with no error — although (by the store's atomicity)
nothing was persisted.  Evaluated at the failing input. -/
theorem saveFailure_returns_success :
    postTransaction .failure ⟨[], []⟩ ⟨"t1", "k1", "A", "B", 100, 0⟩ =
      some ((false, none), ⟨[], []⟩) := by
  rw [post_fresh .failure ⟨[], []⟩ ⟨"t1", "k1", "A", "B", 100, 0⟩ rfl
    (by norm_num) (by decide)]
  rfl

/-- C3: the spec says a self-transfer acquires the single account lock
once and completes.  The code takes the `else` branch (`from < to` is
false) and locks the same non-reentrant mutex twice: `post(A,A,50,key3)`
blocks forever — no result, no entries, no deadlock-freedom. -/
theorem selfTransfer_blocks :
    lockSeq ⟨"t3", "key3", "A", "A", 50, 0⟩ = ["A", "A"] ∧
    acquireAll [] ["A", "A"] = none ∧
    postTransaction .ok ⟨[], []⟩ ⟨"t3", "key3", "A", "A", 50, 0⟩ = none :=
  ⟨by decide, by decide, by decide⟩

/-- C6: the claim says a uniqueness violation at persist time is
translated into the duplicate outcome.  The pre-check duplicate path
returns `(true, nil)` (second conjunct), but when the persist itself
reports `duplicateKey` the code discards the error and returns
`(false, nil)` — reported as a fresh successful posting, not as a
duplicate. -/
theorem duplicateKey_at_persist_reported_as_posted :
    postTransaction .duplicateKey ⟨[], []⟩ ⟨"t6", "k6", "A", "B", 100, 0⟩ =
      some ((false, none), ⟨[], []⟩) ∧
    postTransaction .ok (postedStore ⟨[], []⟩ ⟨"t6", "k6", "A", "B", 100, 0⟩)
        ⟨"t6b", "k6", "C", "D", 100, 1⟩ =
      some ((true, none), postedStore ⟨[], []⟩ ⟨"t6", "k6", "A", "B", 100, 0⟩) := by
  constructor
  · rw [post_fresh .duplicateKey ⟨[], []⟩ ⟨"t6", "k6", "A", "B", 100, 0⟩ rfl
      (by norm_num) (by decide)]
    rfl
  · exact post_duplicate _ _ _ (by decide)

/-- C4: a successful fresh posting (positive amount, fresh key, distinct
accounts, persist succeeds) appends exactly the debit entry
`{tx.ID + "-debit", from, -amount, tx.CreatedAt}` and the credit entry
`{tx.ID + "-credit", to, +amount, tx.CreatedAt}`; the amounts sum to
zero and each has absolute value `amount`. -/
theorem entry_construction_correct (m : MemStore) (tx : Transaction)
    (hfresh : m.transactions.lookup tx.idempotencyKey = none)
    (hamt : 0 < tx.amount) (hne : tx.fromAccount ≠ tx.toAccount) :
    postTransaction .ok m tx = some ((false, none), postedStore m tx) ∧
    (postedStore m tx).entries = m.entries ++ [debitEntry tx, creditEntry tx] ∧
    (debitEntry tx).amount + (creditEntry tx).amount = 0 ∧
    |(debitEntry tx).amount| = tx.amount ∧
    |(creditEntry tx).amount| = tx.amount ∧
    (debitEntry tx).createdAt = tx.createdAt ∧
    (creditEntry tx).createdAt = tx.createdAt ∧
    (debitEntry tx).id = tx.id ++ "-debit" ∧
    (creditEntry tx).id = tx.id ++ "-credit" ∧
    (debitEntry tx).accountId = tx.fromAccount ∧
    (debitEntry tx).amount = -tx.amount ∧
    (creditEntry tx).accountId = tx.toAccount ∧
    (creditEntry tx).amount = tx.amount := by
  refine ⟨post_fresh_ok m tx hfresh hamt hne, rfl,
    by simp [debitEntry, creditEntry], ?_, ?_, rfl, rfl, rfl, rfl, rfl, rfl, rfl, rfl⟩
  · simp [debitEntry, abs_of_pos hamt]
  · simp [creditEntry, abs_of_pos hamt]

/-- C4 witness at a concrete input. -/
theorem entry_construction_correct_witness :
    postTransaction .ok ⟨[], []⟩ ⟨"t4", "k4", "A", "B", 1, 0⟩ =
      some ((false, none), postedStore ⟨[], []⟩ ⟨"t4", "k4", "A", "B", 1, 0⟩) :=
  (entry_construction_correct ⟨[], []⟩ _ rfl zero_lt_one (by decide)).1

/-- C5 counterexample: a transfer whose from-account id is the empty
string, with a fresh key and positive amount, is accepted and persisted —
not rejected with a validation error — refuting "rejects … exactly when …
either account identifier is empty". -/
theorem empty_account_not_rejected :
    postTransaction .ok ⟨[], []⟩ ⟨"t5", "k5", "", "B", 5, 0⟩ =
      some ((false, none), postedStore ⟨[], []⟩ ⟨"t5", "k5", "", "B", 5, 0⟩) :=
  post_fresh_ok _ _ rfl (by norm_num) (by decide)

/-- C5 amended: for a fresh idempotency key and distinct accounts,
`PostTransaction` rejects with a validation error exactly when the amount
is not strictly positive; account identifiers are never checked for
emptiness; on such a rejection nothing is written to the store. -/
theorem validation_amount_only (m : MemStore) (tx : Transaction)
    (hfresh : m.transactions.lookup tx.idempotencyKey = none)
    (hne : tx.fromAccount ≠ tx.toAccount) :
    (tx.amount ≤ 0 →
      postTransaction .ok m tx = some ((false, some .validationAmount), m)) ∧
    (0 < tx.amount →
      postTransaction .ok m tx = some ((false, none), postedStore m tx)) := by
  constructor
  · intro hle
    simp only [postTransaction, MemStore.transactionExists, hfresh,
      Option.isSome_none, Bool.false_eq_true, if_false, lockSeq_acquire tx hne,
      if_pos hle]
  · intro hpos
    exact post_fresh_ok m tx hfresh hpos hne

/-- C5 amended, witness: amount 0 is rejected with the validation error
and the store is untouched. -/
theorem validation_amount_only_witness :
    postTransaction .ok ⟨[], []⟩ ⟨"t5w", "k5w", "A", "B", 0, 0⟩ =
      some ((false, some .validationAmount), ⟨[], []⟩) :=
  (validation_amount_only ⟨[], []⟩ _ rfl (by decide)).1 (le_refl 0)

/-- C7: `GetBalance` is the sum of the amounts of the entries returned by
`GetEntriesByAccount`, computed in the exact decimal model (`ℚ`), and an
account with no entries has balance exactly zero. -/
theorem balance_eq_sum_entries (m : MemStore) (a : String) :
    (getBalance m a).1 =
      ((m.getEntriesByAccount a).1.map (fun e => e.amount)).sum ∧
    ((m.getEntriesByAccount a).1 = [] → (getBalance m a).1 = 0) := by
  constructor
  · simp [getBalance, MemStore.getEntriesByAccount, foldl_add_eq_sum]
  · intro h
    simp only [MemStore.getEntriesByAccount] at h
    simp [getBalance, MemStore.getEntriesByAccount, h]

/-- C7 witness: an account with no entries has balance zero. -/
theorem balance_eq_sum_entries_witness :
    (getBalance ⟨[], []⟩ "acct").1 = 0 :=
  (balance_eq_sum_entries ⟨[], []⟩ "acct").2 rfl

/-- C8: for distinct accounts the two locks are acquired in ascending
order of the Go string order (`goLess`), the sequence covers exactly the
two accounts, and it is a function of the account pair alone — a
transaction in the opposite direction acquires in the same order. -/
theorem lock_order_ascending_direction_independent (tx tx' : Transaction)
    (hne : tx.fromAccount ≠ tx.toAccount)
    (hf : tx'.fromAccount = tx.toAccount)
    (ht : tx'.toAccount = tx.fromAccount) :
    List.Chain' (fun x y => goLess x y = true) (lockSeq tx) ∧
    lockSeq tx' = lockSeq tx ∧
    (lockSeq tx).Perm [tx.fromAccount, tx.toAccount] := by
  rcases goLess_total _ _ hne with hg | hg
  · have hg' := goLess_asymm _ _ hg
    refine ⟨?_, ?_, ?_⟩
    · simp [lockSeq, hg]
    · simp [lockSeq, hf, ht, hg, hg']
    · simp [lockSeq, hg]
  · have hg' := goLess_asymm _ _ hg
    refine ⟨?_, ?_, ?_⟩
    · simp [lockSeq, hg, hg']
    · simp [lockSeq, hf, ht, hg, hg']
    · simp only [lockSeq, hg', Bool.false_eq_true, if_false]
      exact List.Perm.swap _ _ _

/-- C8 witness: accounts `A` and `B`, posted in both directions. -/
theorem lock_order_witness :
    List.Chain' (fun x y => goLess x y = true)
      (lockSeq ⟨"tw", "kw", "A", "B", 1, 0⟩) ∧
    lockSeq ⟨"tw2", "kw2", "B", "A", 1, 0⟩ = lockSeq ⟨"tw", "kw", "A", "B", 1, 0⟩ ∧
    (lockSeq ⟨"tw", "kw", "A", "B", 1, 0⟩).Perm ["A", "B"] :=
  lock_order_ascending_direction_independent
    ⟨"tw", "kw", "A", "B", 1, 0⟩ ⟨"tw2", "kw2", "B", "A", 1, 0⟩ (by decide) rfl rfl

/-- C9: the duplicate decision is made from the idempotency key alone —
never validated, so the empty string works like any other key: after a
transaction with key `k` persists, any transaction carrying `k` returns
the duplicate outcome `(true, nil)` and persists nothing, whatever its
accounts or amount. -/
theorem duplicate_decision_key_only (m : MemStore) (tx1 tx2 : Transaction)
    (so : SaveOutcome)
    (hfresh : m.transactions.lookup tx1.idempotencyKey = none)
    (hamt : 0 < tx1.amount) (hne : tx1.fromAccount ≠ tx1.toAccount)
    (hkey : tx2.idempotencyKey = tx1.idempotencyKey) :
    postTransaction .ok m tx1 = some ((false, none), postedStore m tx1) ∧
    postTransaction so (postedStore m tx1) tx2 =
      some ((true, none), postedStore m tx1) := by
  refine ⟨post_fresh_ok m tx1 hfresh hamt hne, ?_⟩
  apply post_duplicate
  rw [hkey]
  show ((mapSet m.transactions tx1.idempotencyKey tx1).lookup
    tx1.idempotencyKey).isSome = true
  rw [lookup_mapSet]
  rfl

/-- C9 witness: the empty idempotency key, with the second transaction
differing in accounts and amount. -/
theorem duplicate_decision_key_only_witness :
    postTransaction .ok ⟨[], []⟩ ⟨"t9", "", "A", "B", 1, 0⟩ =
      some ((false, none), postedStore ⟨[], []⟩ ⟨"t9", "", "A", "B", 1, 0⟩) ∧
    postTransaction .failure (postedStore ⟨[], []⟩ ⟨"t9", "", "A", "B", 1, 0⟩)
        ⟨"t9b", "", "C", "D", 7, 3⟩ =
      some ((true, none), postedStore ⟨[], []⟩ ⟨"t9", "", "A", "B", 1, 0⟩) :=
  duplicate_decision_key_only ⟨[], []⟩ _ _ .failure rfl zero_lt_one (by decide) rfl

/-- C2: idempotence law.  A fresh valid first posting persists one
transaction under its key and the one debit/credit pair; every later call
carrying the same key returns the duplicate outcome and leaves the store
unchanged, for any whole sequence of such calls.  Concretely:
`post(A,B,100.00,key1)` twice gives `duplicate` on the second call, one
transaction, two entries, `balance(A) = -100`, `balance(B) = 100`. -/
theorem postTransaction_idempotent_law (m : MemStore) (tx1 : Transaction)
    (laters : List Transaction)
    (hfresh : m.transactions.lookup tx1.idempotencyKey = none)
    (hamt : 0 < tx1.amount) (hne : tx1.fromAccount ≠ tx1.toAccount)
    (hall : ∀ tx ∈ laters, tx.idempotencyKey = tx1.idempotencyKey) :
    postTransaction .ok m tx1 = some ((false, none), postedStore m tx1) ∧
    countKey (postedStore m tx1).transactions tx1.idempotencyKey = 1 ∧
    (postedStore m tx1).entries = m.entries ++ [debitEntry tx1, creditEntry tx1] ∧
    (∀ (so : SaveOutcome) (tx2 : Transaction),
      tx2.idempotencyKey = tx1.idempotencyKey →
      postTransaction so (postedStore m tx1) tx2 =
        some ((true, none), postedStore m tx1)) ∧
    (∀ so : SaveOutcome,
      runSeq so (postedStore m tx1) laters = some (postedStore m tx1)) ∧
    postTransaction .ok ⟨[], []⟩ exTx = some ((false, none), exStore) ∧
    postTransaction .ok exStore exTx = some ((true, none), exStore) ∧
    countKey exStore.transactions "key1" = 1 ∧
    exStore.entries.length = 2 ∧
    (getBalance exStore "A").1 = -100 ∧
    (getBalance exStore "B").1 = 100 := by
  have hmem : ((postedStore m tx1).transactions.lookup tx1.idempotencyKey).isSome
      = true := by
    show ((mapSet m.transactions tx1.idempotencyKey tx1).lookup
      tx1.idempotencyKey).isSome = true
    rw [lookup_mapSet]; rfl
  refine ⟨post_fresh_ok m tx1 hfresh hamt hne, countKey_mapSet _ _ _, rfl,
    ?_, ?_, ?_, ?_, ?_, ?_, ?_, ?_⟩
  · intro so tx2 hk
    apply post_duplicate
    rw [hk]; exact hmem
  · intro so
    exact runSeq_dup so _ _ hmem laters hall
  · exact post_fresh_ok _ _ rfl (by norm_num [exTx]) (by decide)
  · exact post_duplicate _ _ _ (by decide)
  · decide
  · decide
  · norm_num [getBalance, MemStore.getEntriesByAccount, exStore, postedStore,
      exTx, debitEntry, creditEntry, List.filter,
      (by decide : ("A" == "B") = false), (by decide : ("B" == "A") = false),
      (by decide : ("A" == "A") = true), (by decide : ("B" == "B") = true)]
  · norm_num [getBalance, MemStore.getEntriesByAccount, exStore, postedStore,
      exTx, debitEntry, creditEntry, List.filter,
      (by decide : ("A" == "B") = false), (by decide : ("B" == "A") = false),
      (by decide : ("A" == "A") = true), (by decide : ("B" == "B") = true)]

/-- C2 witness: a fresh first posting with key `kw`, followed by one later
call carrying `kw`. -/
theorem postTransaction_idempotent_law_witness :
    postTransaction .ok ⟨[], []⟩ ⟨"w2", "kw", "A", "B", 1, 0⟩ =
      some ((false, none), postedStore ⟨[], []⟩ ⟨"w2", "kw", "A", "B", 1, 0⟩) :=
  (postTransaction_idempotent_law ⟨[], []⟩ _ [⟨"w2b", "kw", "C", "D", 2, 1⟩]
    rfl zero_lt_one (by decide) (by simp)).1

/-- C10: every in-memory store operation returns a `nil` error, and the
in-memory-backed `PostTransaction` (the `internal/ledger/ledger.go`
revision) never returns a storage error: any returning call yields
either `nil` (duplicate or success) or the validation error. -/
theorem memory_store_never_errors :
    (∀ (m : MemStore) (e : LedgerEntry), (m.saveEntry e).1 = none) ∧
    (∀ m : MemStore, m.getLedgerEntries.2 = none) ∧
    (∀ (m : MemStore) (a : String), (m.getEntriesByAccount a).2 = none) ∧
    (∀ (m : MemStore) (k : String), (m.transactionExists k).2 = none) ∧
    (∀ (m : MemStore) (tx : Transaction), (m.saveTransaction tx).1 = none) ∧
    (∀ (m : MemStore) (tx : Transaction) (r : Option GoErr × MemStore),
      postTransactionMem m tx = some r →
        r.1 = none ∨ r.1 = some .validationAmount) := by
  refine ⟨fun _ _ => rfl, fun _ => rfl, fun _ _ => rfl, fun _ _ => rfl,
    fun _ _ => rfl, ?_⟩
  intro m tx r h
  unfold postTransactionMem MemStore.transactionExists at h
  simp only [MemStore.saveTransaction, MemStore.saveEntry] at h
  split at h
  · cases h; exact Or.inl rfl
  · split at h
    · cases h
    · split at h
      · cases h; exact Or.inr rfl
      · cases h; exact Or.inl rfl

/-- C10 witness: a duplicate-key call through the in-memory store returns
a `nil` error. -/
theorem memory_store_never_errors_witness :
    ((none : Option GoErr),
        (⟨[], [("k", ⟨"t", "k", "A", "B", 1, 0⟩)]⟩ : MemStore)).1 = none ∨
    ((none : Option GoErr),
        (⟨[], [("k", ⟨"t", "k", "A", "B", 1, 0⟩)]⟩ : MemStore)).1 =
      some .validationAmount :=
  memory_store_never_errors.2.2.2.2.2 ⟨[], [("k", ⟨"t", "k", "A", "B", 1, 0⟩)]⟩
    ⟨"t2", "k", "C", "D", 2, 1⟩ _ rfl

end PaymentsLedger
